import Mathlib

/-
Formal model of the BrainAGE preparation scripts
(`prepare_brainage.py`, `prepare_brainage_from_csv.py`,
`prepare_brainage_from_csv2.py`).

Strings are modelled as `List Char` (Python strings compare by code
point, which coincides with the lexicographic order on the underlying
character lists).  Python numbers that flow through `float(...)` are
modelled exactly as decimal fractions `num / 10 ^ exp`; every numeric
literal exercised in this development is a dyadic rational that a
Python float represents exactly, so the model is faithful on those
inputs.  Falls through Python exceptions are modelled with an explicit
result type `Out`.
-/

namespace BrainAGE

/-- Character list of a string literal. -/
def chars (s : String) : List Char := s.data

/-- Python `str.strip()` on the modelled ASCII fragment: remove leading and
trailing whitespace. -/
def trim (l : List Char) : List Char :=
  ((l.dropWhile Char.isWhitespace).reverse.dropWhile Char.isWhitespace).reverse

/-- Python `str.lower()` on the modelled ASCII fragment. -/
def lower (l : List Char) : List Char := l.map Char.toLower

/-- Python `s.replace(",", ".")` for one-character patterns. -/
def commaToDot (l : List Char) : List Char :=
  l.map (fun c => if c = ',' then '.' else c)

/-- Result of a Python computation: a value or a raised exception. -/
inductive Out (ε : Type) (α : Type) where
  | ok (a : α)
  | err (e : ε)
  deriving DecidableEq

/-- A cell of a parsed CSV row. -/
abbrev Cell := List Char

/- ----------------------------------------------------------------
   Subject-ID grammar.

   `prepare_brainage_from_csv.py` line 13:
     SID_RE = re.compile(r"^([A-Za-z]+)(\d+)$")
   `prepare_brainage_from_csv2.py` lines 12 and 17:
     SID_RE = re.compile(r"^([A-Za-z]+)(\d+[A-Za-z]?)$")
   `prepare_brainage.py` line 11 (note: no trailing `$` anchor):
     re.match(r"^([A-Za-z]+)(\d+)", sid)

   All three regexes are deterministic: the leading `[A-Za-z]+` can
   only take the maximal run of letters (giving a letter back would
   force `\d` to match a letter) and `\d+` likewise takes the maximal
   run of digits.  They are therefore modelled by splitting the token
   into its maximal leading letter run, then the maximal digit run,
   then the remainder.
   ---------------------------------------------------------------- -/

/-- Maximal leading letter run of a token (what the greedy `[A-Za-z]+`
group consumes). -/
def runL (s : List Char) : List Char := s.takeWhile Char.isAlpha

/-- Maximal digit run after the letters (what the greedy `\d+` group
consumes). -/
def runD (s : List Char) : List Char :=
  (s.dropWhile Char.isAlpha).takeWhile Char.isDigit

/-- Remainder of a token after the letter run and the digit run. -/
def runT (s : List Char) : List Char :=
  (s.dropWhile Char.isAlpha).dropWhile Char.isDigit

/-- `SID_RE.match` of `prepare_brainage_from_csv.py`
(`^([A-Za-z]+)(\d+)$`) as a recognizer. -/
def csvSidMatch (s : List Char) : Bool :=
  !(runL s).isEmpty && !(runD s).isEmpty && (runT s).isEmpty

/-- `split_sid` of `prepare_brainage_from_csv2.py`, lines 15-20:
match `^([A-Za-z]+)(\d+[A-Za-z]?)$` and return `(group, number)`;
`none` models the raised `ValueError`. -/
def splitSid2 (s : List Char) : Option (List Char × List Char) :=
  if (runL s).isEmpty || (runD s).isEmpty then none
  else
    match runT s with
    | [] => some (runL s, runD s)
    | [c] => if c.isAlpha then some (runL s, runD s ++ [c]) else none
    | _ => none

/-- `SID_RE.match` of `prepare_brainage_from_csv2.py` as a recognizer. -/
def sid2Match (s : List Char) : Bool := (splitSid2 s).isSome

/-- `split_sid` of `prepare_brainage.py`, lines 10-14: match
`^([A-Za-z]+)(\d+)` (no end anchor) and return the two groups;
`none` models the raised `ValueError`. -/
def splitSidPB (s : List Char) : Option (List Char × List Char) :=
  if (runL s).isEmpty || (runD s).isEmpty then none else some (runL s, runD s)

/-- The ID grammar as the spec words it: one or more letters, then one
or more digits, then optionally a single trailing letter. -/
def IsIdGrammar (s : List Char) : Prop :=
  ∃ L D t : List Char,
    L ≠ [] ∧ (∀ c ∈ L, c.isAlpha = true) ∧
    D ≠ [] ∧ (∀ c ∈ D, c.isDigit = true) ∧
    (t = [] ∨ ∃ c : Char, c.isAlpha = true ∧ t = [c]) ∧
    s = L ++ D ++ t

/- ----------------------------------------------------------------
   Decimal fragment of Python `float` / `round` / `int`.

   Numeric strings are parsed exactly as decimal fractions
   `num / 10 ^ exp`.  All numeric strings exercised by this
   development denote dyadic rationals (or integers), which Python
   floats represent exactly, so rounding and truncation agree with
   CPython on these inputs.  (Exponents, `inf`/`nan` and underscore
   separators of the full Python float grammar are not modelled; the
   scripts' CSV data never uses them.)
   ---------------------------------------------------------------- -/

/-- An exact decimal value `num / 10 ^ exp`. -/
structure Dec where
  num : Int
  exp : Nat
  deriving DecidableEq

/-- Value of a digit string. -/
def digitsVal (l : List Char) : Nat :=
  l.foldl (fun acc c => acc * 10 + (c.toNat - 48)) 0

/-- Parse an optional sign, an integer part and an optional fractional
part, exactly (`none` models a raised `ValueError`). -/
def parseDec (l : List Char) : Option Dec :=
  let sgn : Int := if l.head? = some '-' then -1 else 1
  let rest := if l.head? = some '-' || l.head? = some '+' then l.tail else l
  let ip := rest.takeWhile Char.isDigit
  let r2 := rest.dropWhile Char.isDigit
  match r2 with
  | [] => if ip.isEmpty then none else some ⟨sgn * digitsVal ip, 0⟩
  | '.' :: fr =>
    if fr.all Char.isDigit && !(ip.isEmpty && fr.isEmpty) then
      some ⟨sgn * digitsVal (ip ++ fr), fr.length⟩
    else none
  | _ => none

/-- Python 3 `round(x)` with no second argument: round half to even. -/
def pyRound (d : Dec) : Int :=
  let p : Int := (10 : Int) ^ d.exp
  let q := d.num.fdiv p
  let r := d.num - q * p
  if 2 * r < p then q
  else if p < 2 * r then q + 1
  else if q % 2 = 0 then q else q + 1

/-- Python `int(x)` on a float value: truncation toward zero. -/
def pyTrunc (d : Dec) : Int :=
  d.num.tdiv ((10 : Int) ^ d.exp)

/- ----------------------------------------------------------------
   `parse_csv_german` of `prepare_brainage_from_csv2.py`, lines 77-147.
   The function receives the rows already split by the csv reader; the
   delimiter sniffing of `_sniff_delim` is pure I/O and stays outside
   the model.  Note three guards that are commented out in the source
   (lines 109-110, 118-121, 138-139): short rows raise `IndexError`,
   unparsable ages raise `ValueError`, and an unresolvable sex is
   stored as `None` instead of skipping the row.  The `skipped`
   counter is consequently never incremented.
   ---------------------------------------------------------------- -/

/-- Errors of `parse_csv_german` (raised Python exceptions). -/
inductive GErr where
  | emptyCsv
  | indexError
  | valueError
  | noUsable
  | colNotFound (cands : List Cell) (header : List Cell)
  deriving DecidableEq

/-- Boolean list-prefix test. -/
def isPrefixB : List Char → List Char → Bool
  | [], _ => true
  | _ :: _, [] => false
  | a :: as, b :: bs => a == b && isPrefixB as bs

/-- Boolean contiguous-substring test, Python's `needle in hay`. -/
def isSub (n : List Char) : List Char → Bool
  | [] => n.isEmpty
  | b :: bs => isPrefixB n (b :: bs) || isSub n bs

/-- Inner loop of `_find_col`: first index whose (lowered, trimmed)
header cell contains one of the candidates as a substring. -/
def findColFrom (cands : List Cell) : Nat → List Cell → Option Nat
  | _, [] => none
  | i, h :: hs =>
    if cands.any (fun c => isSub c h) then some i else findColFrom cands (i + 1) hs

/-- `_find_col` of `prepare_brainage_from_csv2.py`, lines 77-83:
case-insensitive substring match of any candidate against the header
cells; the error carries the candidates and the observed header. -/
def findCol (header : List Cell) (cands : List Cell) : Out GErr Nat :=
  match findColFrom cands 0 (header.map (fun h => lower (trim h))) with
  | some i => .ok i
  | none => .err (.colNotFound cands header)

/-- Python dict assignment `m[k] = v`: replace in place or append. -/
def upsert {β : Type} (m : List (Cell × β)) (k : Cell) (v : β) : List (Cell × β) :=
  if m.any (fun p => p.1 == k) then
    m.map (fun p => if p.1 == k then (k, v) else p)
  else m ++ [(k, v)]

/-- The `male` resolution of `parse_csv_german`, lines 124-137:
synonym sets (sheet convention 1=m, 2=f), then a numeric fallback;
`none` when nothing matches (the row is still stored). -/
def g2SexOf (sx : Cell) : Option Int :=
  if [chars "1", chars "m", chars "male", chars "mann", chars "männlich"].contains sx then
    some 1
  else if [chars "0", chars "2", chars "f", chars "female", chars "frau",
      chars "weiblich"].contains sx then
    some 0
  else
    match parseDec sx with
    | some d =>
      if pyTrunc d = 1 then some 1
      else if pyTrunc d = 2 then some 0
      else none
    | none => none

/-- Body of the row loop of `parse_csv_german`, lines 108-141, for one
row.  Cell accesses are unguarded in the source, so a short row is an
`IndexError`; `float(age_s)` is unguarded, so a bad age is a
`ValueError`; rows whose `Code` cell fails `SID_RE` are skipped
without counting. -/
def g2Step (codeI ageI sexI : Nat) (acc : List (Cell × Int × Option Int) × Nat)
    (r : List Cell) : Out GErr (List (Cell × Int × Option Int) × Nat) :=
  match r[codeI]? with
  | none => .err .indexError
  | some codeCell =>
    let sid := trim codeCell
    if !sid2Match sid then .ok acc
    else
      match r[ageI]? with
      | none => .err .indexError
      | some ageCell =>
        match parseDec (commaToDot (trim ageCell)) with
        | none => .err .valueError
        | some d =>
          match r[sexI]? with
          | none => .err .indexError
          | some sexCell =>
            .ok (upsert acc.1 sid (pyRound d, g2SexOf (lower (trim sexCell))), acc.2)

/-- The row loop of `parse_csv_german`; an exception aborts it. -/
def g2Loop (codeI ageI sexI : Nat) :
    List (List Cell) → List (Cell × Int × Option Int) × Nat →
    Out GErr (List (Cell × Int × Option Int) × Nat)
  | [], acc => .ok acc
  | r :: rs, acc =>
    match g2Step codeI ageI sexI acc r with
    | .err e => .err e
    | .ok acc2 => g2Loop codeI ageI sexI rs acc2

/-- `parse_csv_german`, lines 85-147, on the split rows: resolve the
three columns by substring match, always treat the first row as a
header, run the row loop, fail when the mapping is empty. -/
def parseCsvGerman (rows : List (List Cell)) :
    Out GErr (List (Cell × Int × Option Int) × Nat) :=
  match rows with
  | [] => .err .emptyCsv
  | header :: rest =>
    match findCol header [chars "code"] with
    | .err e => .err e
    | .ok codeI =>
      match findCol header [chars "alter", chars "age"] with
      | .err e => .err e
      | .ok ageI =>
        match findCol header [chars "geschlecht", chars "sex"] with
        | .err e => .err e
        | .ok sexI =>
          match g2Loop codeI ageI sexI rest ([], 0) with
          | .err e => .err e
          | .ok acc =>
            if acc.1.isEmpty then .err .noUsable else .ok acc

/-- The Scenario-1 input of the spec: header
`Code;Alter;Geschlecht (1=m, 2=f)` and data row `D01;76,5;1`, split at
the semicolons. -/
def c2Rows : List (List Cell) :=
  [[chars "Code", chars "Alter", chars "Geschlecht (1=m, 2=f)"],
   [chars "D01", chars "76,5", chars "1"]]

/- ----------------------------------------------------------------
   `parse_csv` of `prepare_brainage_from_csv.py`, lines 85-178.
   As above, the function is modelled on the rows already split by the
   csv reader.  Row-level problems all degrade to "skip and count";
   configuration-level problems raise.  Column resolution (lines
   108-128) mixes named and positional resolution per field whenever
   at least one name is given; a field with neither name nor index
   stays unresolved (`None` in Python), which makes the row loop raise
   a `TypeError` at its `max(...)` comparison on the first data row.
   ---------------------------------------------------------------- -/

/-- Errors of `parse_csv` (raised Python exceptions). -/
inductive CErr where
  | emptyCsv
  | nameNotFound (name : Cell) (header : List Cell)
  | noHeaderForNames
  | needAllIndices
  | typeError
  | noUsable
  deriving DecidableEq

/-- Python `list.index`: first position of an equal element. -/
def indexOfFrom (target : Cell) : Nat → List Cell → Option Nat
  | _, [] => none
  | i, h :: hs => if h == target then some i else indexOfFrom target (i + 1) hs

/-- `idx_from_name`, lines 111-116: the requested name, trimmed and
lowered, must be *equal* to a trimmed and lowered header cell (Python
`list.index`); the error carries the name and the observed header. -/
def idxFromName (header : List Cell) (name : Cell) : Out CErr Nat :=
  match indexOfFrom (lower (trim name)) 0 (header.map (fun h => lower (trim h))) with
  | some i => .ok i
  | none => .err (.nameNotFound name header)

/-- One field of lines 121-123: by name when a name is given,
otherwise by truthy 1-based index, otherwise unresolved (`None`). -/
def resolveOne (header : List Cell) (name : Option Cell) (col : Option Nat) :
    Out CErr (Option Nat) :=
  match name with
  | some n =>
    match idxFromName header n with
    | .ok i => .ok (some i)
    | .err e => .err e
  | none =>
    match col with
    | some c => .ok (if c = 0 then none else some (c - 1))
    | none => .ok none

/-- Column resolution of `parse_csv`, lines 118-128: when any name is
given, each field independently falls back from its name to its
index; otherwise all three indices are required. -/
def resolveCols (header : List Cell) (hasHeader : Bool)
    (idCol ageCol sexCol : Option Nat) (idName ageName sexName : Option Cell) :
    Out CErr (Option Nat × Option Nat × Option Nat) :=
  if idName.isSome || ageName.isSome || sexName.isSome then
    if !hasHeader then .err .noHeaderForNames
    else
      match resolveOne header idName idCol with
      | .err e => .err e
      | .ok idI =>
        match resolveOne header ageName ageCol with
        | .err e => .err e
        | .ok ageI =>
          match resolveOne header sexName sexCol with
          | .err e => .err e
          | .ok sexI => .ok (idI, ageI, sexI)
  else
    match idCol, ageCol, sexCol with
    | some i, some a, some sx => .ok (some (i - 1), some (a - 1), some (sx - 1))
    | _, _, _ => .err .needAllIndices

/-- Header detection of `parse_csv`, line 109: the first row is a
header when at least one cell fails `SID_RE`. -/
def hasHeaderB (header : List Cell) : Bool :=
  header.any (fun c => !csvSidMatch c)

/-- Sex resolution of `parse_csv`, lines 152-169: the literal synonym
table first, then the numeric fallback accepting only 0 and 1. -/
def csvSexOf (s : Cell) : Option Int :=
  match ([(chars "0", (0 : Int)), (chars "1", 1),
      (chars "m", 1), (chars "male", 1), (chars "mann", 1), (chars "männlich", 1),
      (chars "f", 0), (chars "w", 0), (chars "female", 0), (chars "frau", 0),
      (chars "weiblich", 0)].find? (fun p => p.1 == s)) with
  | some p => some p.2
  | none =>
    match parseDec s with
    | some d =>
      if pyTrunc d = 0 || pyTrunc d = 1 then some (pyTrunc d) else none
    | none => none

/-- One data row of `parse_csv`, lines 134-171: `none` means the row
is skipped and counted (`bad_rows`), `some` is the accepted record. -/
def csvRowStep (idI ageI sexI : Nat) (r : List Cell) : Option (Cell × Int × Int) :=
  if r.length ≤ max idI (max ageI sexI) then none
  else if !csvSidMatch (trim (r.getD idI [])) then none
  else
    match parseDec (trim (r.getD ageI [])) with
    | none => none
    | some d =>
      match csvSexOf (lower (trim (r.getD sexI []))) with
      | none => none
      | some sex => some (trim (r.getD idI []), pyRound d, sex)

/-- One accumulator step of the row loop of `parse_csv`. -/
def csvAccStep (idI ageI sexI : Nat) (acc : List (Cell × Int × Int) × Nat)
    (r : List Cell) : List (Cell × Int × Int) × Nat :=
  match csvRowStep idI ageI sexI r with
  | none => (acc.1, acc.2 + 1)
  | some (sid, a, sx) => (upsert acc.1 sid (a, sx), acc.2)

/-- The row loop of `parse_csv`: fold the rows into the mapping
(last write wins) and the `bad_rows` counter. -/
def parseCsvRows (idI ageI sexI : Nat) (rows : List (List Cell)) :
    List (Cell × Int × Int) × Nat :=
  rows.foldl (csvAccStep idI ageI sexI) ([], 0)

/-- `parse_csv`, lines 85-178, on the split rows. -/
def parseCsv (rows : List (List Cell))
    (idCol ageCol sexCol : Option Nat) (idName ageName sexName : Option Cell) :
    Out CErr (List (Cell × Int × Int) × Nat) :=
  match rows with
  | [] => .err .emptyCsv
  | header :: rest =>
    let hasH := hasHeaderB header
    match resolveCols header hasH idCol ageCol sexCol idName ageName sexName with
    | .err e => .err e
    | .ok (some i, some a, some sx) =>
      let data := if hasH then rest else header :: rest
      let acc := parseCsvRows i a sx data
      if acc.1.isEmpty then .err .noUsable else .ok acc
    | .ok _ =>
      let data := if hasH then rest else header :: rest
      if data.isEmpty then .err .noUsable else .err .typeError

/-- A German-style header row used by several concrete runs below. -/
def gHeader : List Cell :=
  [chars "Code", chars "Alter", chars "Geschlecht (1=m, 2=f)"]

/- ----------------------------------------------------------------
   Python string order, `sorted`, the reconciliation step of `main`,
   and `write_group_labels`.
   ---------------------------------------------------------------- -/

/-- Python `<` on strings: lexicographic by code point. -/
def lexLt : List Char → List Char → Bool
  | [], [] => false
  | [], _ :: _ => true
  | _ :: _, [] => false
  | a :: as, b :: bs => if a < b then true else if b < a then false else lexLt as bs

/-- The reflexive order Python `sorted` sorts by. -/
def pyLe (a b : List Char) : Prop := lexLt b a = false

instance : DecidableRel pyLe :=
  fun a b => inferInstanceAs (Decidable (lexLt b a = false))

/-- Python `sorted` on strings.  On the duplicate-free key lists it is
applied to, any sorted permutation is unique, so insertion sort models
it exactly. -/
def pysort (l : List (List Char)) : List (List Char) :=
  List.insertionSort pyLe l

/-- The reconciliation step of `main` (csv.py lines 233-254, csv2
lines 179-197): the resolved subjects are the CSV subjects found on
disk, visited in sorted order; the only discrepancy diagnostic is the
sorted list of CSV subjects missing on disk (printed as a warning).
Directories without a CSV record are silently ignored. -/
def reconcile (wanted disk : List Cell) : List Cell × List Cell :=
  ((pysort wanted).filter (fun s => disk.contains s),
   pysort (wanted.filter (fun s => !disk.contains s)))

/-- Python `str(i)` for an integer. -/
def intStr (i : Int) : List Char := (toString i).data

/-- The keys of one group's `sid_map`. -/
def keysOf (m : List (Cell × Int × Int)) : List Cell := m.map (fun p => p.1)

/-- Python `sid_map[s]` (the callers only look up present keys; the
default is never reached on the inputs of the theorems below). -/
def lookupRec (m : List (Cell × Int × Int)) (k : Cell) : Int × Int :=
  match m.find? (fun p => p.1 == k) with
  | some p => p.2
  | none => (0, 0)

/-- `sids_sorted = sorted(sid_map.keys())` of `write_group_labels`
(csv.py lines 182-199, csv2 lines 150-162). -/
def sidsSorted (m : List (Cell × Int × Int)) : List Cell :=
  pysort (keysOf m)

/-- Lines of `subjects_<G>.txt`: the sorted subject ids. -/
def subjectsLines (m : List (Cell × Int × Int)) : List Cell :=
  sidsSorted m

/-- Lines of `age_<G>.txt`: `str(sid_map[s][0])` in sorted order. -/
def ageLines (m : List (Cell × Int × Int)) : List Cell :=
  (sidsSorted m).map (fun s => intStr (lookupRec m s).1)

/-- Lines of `male_<G>.txt`: `str(sid_map[s][1])` in sorted order. -/
def maleLines (m : List (Cell × Int × Int)) : List Cell :=
  (sidsSorted m).map (fun s => intStr (lookupRec m s).2)

/-- The copied grey-matter destination filename `rp1_<SID>_T1.nii`
(`copy_seg_for_sid`). -/
def destName (sid : Cell) : Cell :=
  chars "rp1_" ++ sid ++ chars "_T1.nii"

/-- A two-subject group with zero-padded ids, used as concrete input
of the label-alignment theorem. -/
def mEx : List (Cell × Int × Int) :=
  [(chars "D01", 70, 1), (chars "D02", 80, 0)]

/-- A two-subject group where one id is a proper prefix of the other:
the labels are emitted in the order `D1, D12` while the copied
filenames sort as `rp1_D12_T1.nii < rp1_D1_T1.nii`. -/
def mPre : List (Cell × Int × Int) :=
  [(chars "D1", 70, 1), (chars "D12", 80, 0)]

/- Character-class facts used to reason about the maximal-munch runs. -/

theorem digit_not_alpha {c : Char} (h : c.isDigit = true) : c.isAlpha = false := by
  simp only [Char.isDigit, Bool.and_eq_true, decide_eq_true_eq, ge_iff_le] at h
  cases hA : c.isAlpha with
  | false => rfl
  | true =>
    exfalso
    simp only [Char.isAlpha, Char.isUpper, Char.isLower, Bool.or_eq_true, Bool.and_eq_true,
      decide_eq_true_eq, ge_iff_le] at hA
    rcases hA with ⟨h1, _⟩ | ⟨h1, _⟩
    · exact absurd (UInt32.le_trans h1 h.2) (by decide)
    · exact absurd (UInt32.le_trans h1 h.2) (by decide)

theorem alpha_not_digit {c : Char} (h : c.isAlpha = true) : c.isDigit = false := by
  cases hD : c.isDigit with
  | false => rfl
  | true => exact absurd h (by simp [digit_not_alpha hD])

/-- If `p` holds on all of `L` and fails on the head of `rest`, the
`takeWhile`/`dropWhile` pair splits `L ++ rest` back into `L` and
`rest`. -/
theorem takeWhile_dropWhile_app (p : Char → Bool) (L rest : List Char)
    (hL : ∀ c ∈ L, p c = true)
    (hr : ∀ c, rest.head? = some c → p c = false) :
    (L ++ rest).takeWhile p = L ∧ (L ++ rest).dropWhile p = rest := by
  induction L with
  | nil =>
    simp only [List.nil_append]
    cases rest with
    | nil => simp
    | cons b bs =>
      have hb : p b = false := hr b rfl
      simp [List.takeWhile_cons, List.dropWhile_cons, hb]
  | cons a as ih =>
    have ha : p a = true := hL a (List.mem_cons_self a as)
    have ih' := ih (fun c hc => hL c (List.mem_cons_of_mem a hc))
    simp [List.takeWhile_cons, List.dropWhile_cons, ha, ih'.1, ih'.2]

theorem mem_takeWhile_all (p : Char → Bool) (l : List Char) :
    ∀ c ∈ l.takeWhile p, p c = true :=
  fun _ hc => List.mem_takeWhile_imp hc

/-- Success of the csv2 `split_sid` characterizes the spec's ID grammar,
and the returned decomposition concatenates back to the input. -/
theorem splitSid2_sound (s : List Char) (p1 p2 : List Char)
    (h : splitSid2 s = some (p1, p2)) : p1 ++ p2 = s ∧ IsIdGrammar s := by
  unfold splitSid2 at h
  have hs : runL s ++ (runD s ++ runT s) = s := by
    unfold runL runD runT
    rw [List.takeWhile_append_dropWhile, List.takeWhile_append_dropWhile]
  have hL : ∀ c ∈ runL s, c.isAlpha = true := mem_takeWhile_all _ _
  have hD : ∀ c ∈ runD s, c.isDigit = true := mem_takeWhile_all _ _
  by_cases hLe : (runL s).isEmpty
  · rw [hLe] at h
    simp at h
  by_cases hDe : (runD s).isEmpty
  · rw [Bool.not_eq_true] at hLe
    rw [hLe, hDe] at h
    simp at h
  rw [Bool.not_eq_true] at hLe hDe
  rw [hLe, hDe] at h
  have hLne : runL s ≠ [] := by
    intro hc
    rw [hc] at hLe
    cases hLe
  have hDne : runD s ≠ [] := by
    intro hc
    rw [hc] at hDe
    cases hDe
  cases htEq : runT s with
  | nil =>
    rw [htEq] at h hs
    simp only [Bool.or_self, Bool.false_eq_true, if_false, Option.some.injEq,
      Prod.mk.injEq] at h
    obtain ⟨h1, h2⟩ := h
    refine ⟨?_, runL s, runD s, [], hLne, hL, hDne, hD, Or.inl rfl, ?_⟩
    · rw [← h1, ← h2]
      simpa using hs
    · simpa using hs.symm
  | cons c rest =>
    cases rest with
    | nil =>
      rw [htEq] at h hs
      by_cases hc : c.isAlpha
      · simp only [Bool.or_self, Bool.false_eq_true, if_false, hc, if_true,
          Option.some.injEq, Prod.mk.injEq] at h
        obtain ⟨h1, h2⟩ := h
        refine ⟨?_, runL s, runD s, [c], hLne, hL, hDne, hD, Or.inr ⟨c, hc, rfl⟩, ?_⟩
        · rw [← h1, ← h2]
          exact hs
        · rw [List.append_assoc]
          exact hs.symm
      · rw [Bool.not_eq_true] at hc
        simp [hc] at h
    | cons c2 rest2 =>
      rw [htEq] at h
      simp at h

/-- A token in the spec's ID grammar is accepted by the csv2
`split_sid`. -/
theorem splitSid2_complete (s : List Char) (h : IsIdGrammar s) :
    ∃ p, splitSid2 s = some p := by
  obtain ⟨L, D, t, hLne, hL, hDne, hD, ht, hs⟩ := h
  subst hs
  have hheadD : ∀ c, (D ++ t).head? = some c → c.isAlpha = false := by
    intro c hc
    cases D with
    | nil => exact absurd rfl hDne
    | cons d ds =>
      simp only [List.cons_append, List.head?_cons, Option.some.injEq] at hc
      subst hc
      exact digit_not_alpha (hD d (List.mem_cons_self d ds))
  have h1 : (L ++ (D ++ t)).takeWhile Char.isAlpha = L ∧
      (L ++ (D ++ t)).dropWhile Char.isAlpha = D ++ t :=
    takeWhile_dropWhile_app _ _ _ hL hheadD
  have hheadt : ∀ c, t.head? = some c → c.isDigit = false := by
    intro c hc
    rcases ht with h0 | ⟨c', hc', h0⟩
    · rw [h0] at hc
      cases hc
    · rw [h0] at hc
      simp only [List.head?_cons, Option.some.injEq] at hc
      subst hc
      exact alpha_not_digit hc'
  have h2 : (D ++ t).takeWhile Char.isDigit = D ∧ (D ++ t).dropWhile Char.isDigit = t :=
    takeWhile_dropWhile_app _ _ _ hD hheadt
  have hrL : runL (L ++ D ++ t) = L := by
    unfold runL
    rw [List.append_assoc]
    exact h1.1
  have hrD : runD (L ++ D ++ t) = D := by
    unfold runD
    rw [List.append_assoc, h1.2]
    exact h2.1
  have hrT : runT (L ++ D ++ t) = t := by
    unfold runT
    rw [List.append_assoc, h1.2]
    exact h2.2
  have hLe : L.isEmpty = false := by
    cases L with
    | nil => exact absurd rfl hLne
    | cons a as => rfl
  have hDe : D.isEmpty = false := by
    cases D with
    | nil => exact absurd rfl hDne
    | cons a as => rfl
  unfold splitSid2
  rw [hrL, hrD, hrT, hLe, hDe]
  rcases ht with h0 | ⟨c, hc, h0⟩
  · subst h0
    exact ⟨(L, D), by simp⟩
  · subst h0
    exact ⟨(L, D ++ [c]), by simp [hc]⟩

/-- C8 counterexample input: the token `K11a` lies in the claimed grammar. -/
theorem k11a_in_grammar : IsIdGrammar (chars "K11a") :=
  ⟨chars "K", chars "11", chars "a", by decide, by decide, by decide, by decide,
    Or.inr ⟨'a', by decide, rfl⟩, by decide⟩

/-- C8 counterexample: the claim says every grammar token's decomposition
concatenates back to the original token and every other token is rejected.
The `split_sid` of `prepare_brainage.py` (regex without end anchor) accepts
the grammar token `K11a` but decomposes it as `("K", "11")`, which does not
concatenate back to `K11a`; it also accepts the non-grammar token `D01!!`. -/
theorem C8_counterexample :
    IsIdGrammar (chars "K11a") ∧
    splitSidPB (chars "K11a") = some (chars "K", chars "11") ∧
    chars "K" ++ chars "11" ≠ chars "K11a" ∧
    splitSidPB (chars "D01!!") = some (chars "D", chars "01") := by
  refine ⟨k11a_in_grammar, by decide, by decide, by decide⟩

/-- C8 (amended): the round-trip law holds for `split_sid` of
`prepare_brainage_from_csv2.py`: it accepts exactly the tokens of the
grammar (letters, digits, optional single trailing letter) and its
decomposition concatenates back to the token; `split_sid` of
`prepare_brainage.py` instead matches only a prefix, accepting `K11a`
with the trailing letter dropped. -/
theorem C8_amended :
    (∀ s : List Char, IsIdGrammar s ↔ ∃ p, splitSid2 s = some p) ∧
    (∀ (s : List Char) (p : List Char × List Char),
      splitSid2 s = some p → p.1 ++ p.2 = s) ∧
    splitSidPB (chars "K11a") = some (chars "K", chars "11") := by
  refine ⟨?_, ?_, by decide⟩
  · intro s
    constructor
    · exact splitSid2_complete s
    · rintro ⟨⟨q1, q2⟩, hp⟩
      exact (splitSid2_sound s q1 q2 hp).2
  · intro s p hp
    obtain ⟨q1, q2⟩ := p
    exact (splitSid2_sound s q1 q2 hp).1

/-- C8 witness: the amended round-trip law evaluated on the concrete
token `DK03`. -/
theorem C8_witness : chars "DK" ++ chars "03" = chars "DK03" :=
  C8_amended.2.1 (chars "DK03") (chars "DK", chars "03") (by decide)

/-- C2 counterexample: on the Scenario-1 input the parser yields the
single record `(D01, 76, male)`, not age 77: Python's `round` rounds
half to even, so `round(76.5) = 76`. -/
theorem C2_counterexample :
    parseCsvGerman c2Rows = .ok ([(chars "D01", 76, some 1)], 0) ∧ (76 : Int) ≠ 77 := by
  decide

/-- C2 (amended): parsing the CSV with header
`Code;Alter;Geschlecht (1=m, 2=f)` and sole data row `D01;76,5;1`
yields exactly one record: id `D01`, age 76 (the decimal comma is
normalized to a point, the value parsed as a real number and rounded
by Python's half-to-even `round`), sex male. -/
theorem C2_amended :
    parseCsvGerman c2Rows = .ok ([(chars "D01", 76, some 1)], 0) := by
  decide

/-- C5: on a row whose sex cell is `unknown`, `parse_csv_german` does
not skip or count the row: it stores the record with sex `None`
(contradicting its own docstring, which promises `male_flag` values
`1`/`0` only), and the skip counter stays 0. -/
theorem C5_eval :
    parseCsvGerman
      [[chars "Code", chars "Alter", chars "Geschlecht (1=m, 2=f)"],
       [chars "D01", chars "70", chars "unknown"]]
    = .ok ([(chars "D01", 70, none)], 0) := by
  decide

/-- C4 counterexample: `parse_csv_german` raises on a per-row basis:
a `ValueError` on the unparsable age `NA`, and an `IndexError` on a
row shorter than the resolved column indices. -/
theorem C4_counterexample :
    parseCsvGerman
      [[chars "Code", chars "Alter", chars "Geschlecht (1=m, 2=f)"],
       [chars "D01", chars "NA", chars "1"]]
    = .err .valueError ∧
    parseCsvGerman
      [[chars "Code", chars "Alter", chars "Geschlecht (1=m, 2=f)"],
       [chars "D01"]]
    = .err .indexError := by
  exact ⟨by decide, by decide⟩

/- Helper lemmas about the csv.py row loop. -/

theorem csvFold_count (idI ageI sexI : Nat) (rows : List (List Cell)) :
    ∀ acc : List (Cell × Int × Int) × Nat,
      (rows.foldl (csvAccStep idI ageI sexI) acc).2
        = acc.2 + rows.countP (fun r => (csvRowStep idI ageI sexI r).isNone) := by
  induction rows with
  | nil => simp
  | cons r rs ih =>
    intro acc
    rw [List.foldl_cons, ih]
    unfold csvAccStep
    cases h : csvRowStep idI ageI sexI r with
    | none =>
      simp only [List.countP_cons, h, Option.isNone_none, if_true]
      omega
    | some v =>
      obtain ⟨sid, a, sx⟩ := v
      simp only [List.countP_cons, h, Option.isNone_some]
      simp

theorem mem_upsert {β : Type} (m : List (Cell × β)) (k : Cell) (w : β) (x : Cell × β)
    (hx : x ∈ upsert m k w) : x ∈ m ∨ x = (k, w) := by
  unfold upsert at hx
  by_cases hc : m.any (fun p => p.1 == k)
  · rw [if_pos hc] at hx
    obtain ⟨p, hp, hpe⟩ := List.mem_map.mp hx
    by_cases hpk : p.1 == k
    · right
      rw [if_pos hpk] at hpe
      exact hpe.symm
    · left
      rw [if_neg hpk] at hpe
      exact hpe ▸ hp
  · rw [if_neg hc] at hx
    rcases List.mem_append.mp hx with h | h
    · left
      exact h
    · right
      simpa using h

theorem csvFold_mem (idI ageI sexI : Nat) (rows : List (List Cell)) :
    ∀ (acc : List (Cell × Int × Int) × Nat) (x : Cell × Int × Int),
      x ∈ (rows.foldl (csvAccStep idI ageI sexI) acc).1 →
      x ∈ acc.1 ∨ ∃ r ∈ rows, csvRowStep idI ageI sexI r = some x := by
  induction rows with
  | nil =>
    intro acc x hx
    exact Or.inl hx
  | cons r rs ih =>
    intro acc x hx
    rw [List.foldl_cons] at hx
    rcases ih _ x hx with hmem | ⟨r2, hr2, he⟩
    · unfold csvAccStep at hmem
      cases h : csvRowStep idI ageI sexI r with
      | none =>
        rw [h] at hmem
        exact Or.inl hmem
      | some v =>
        obtain ⟨sid, a, sx⟩ := v
        rw [h] at hmem
        rcases mem_upsert _ _ _ _ hmem with h2 | h2
        · exact Or.inl h2
        · exact Or.inr ⟨r, List.mem_cons_self r rs, by rw [h, h2]⟩
    · exact Or.inr ⟨r2, List.mem_cons_of_mem r hr2, he⟩

/-- C4 (amended): in `parse_csv` of `prepare_brainage_from_csv.py` the
claim holds: every data row either contributes a record or is skipped
with the `bad_rows` counter incremented — the counter is exactly the
number of skipped rows, and every record in the mapping comes from a
row the step accepted, so no row raises.  In `parse_csv_german` of
`prepare_brainage_from_csv2.py` the claim fails: an unparsable age
raises a `ValueError` (the guard is commented out in the source). -/
theorem C4_amended :
    (∀ (idI ageI sexI : Nat) (rows : List (List Cell)),
      (parseCsvRows idI ageI sexI rows).2
        = rows.countP (fun r => (csvRowStep idI ageI sexI r).isNone)) ∧
    (∀ (idI ageI sexI : Nat) (rows : List (List Cell)) (x : Cell × Int × Int),
      x ∈ (parseCsvRows idI ageI sexI rows).1 →
      ∃ r ∈ rows, csvRowStep idI ageI sexI r = some x) ∧
    parseCsvGerman [gHeader, [chars "D01", chars "NA", chars "1"]] = .err .valueError := by
  refine ⟨?_, ?_, by decide⟩
  · intro idI ageI sexI rows
    unfold parseCsvRows
    rw [csvFold_count]
    simp
  · intro idI ageI sexI rows x hx
    unfold parseCsvRows at hx
    rcases csvFold_mem idI ageI sexI rows _ x hx with h | h
    · cases h
    · exact h

/-- C3 counterexample: `parse_csv` treats the first row as a header as
soon as *one* cell fails the ID grammar, even when another cell
matches it.  The row `["D01", "Age"]` has the grammar-matching cell
`D01`, yet `has_header` is true; consequently a lone all-data-looking
first row such as `["D01", "55", "1"]` would be kept, while the mixed
row is swallowed as a header. -/
theorem C3_counterexample :
    csvSidMatch (chars "D01") = true ∧
    hasHeaderB [chars "D01", chars "Age"] = true ∧
    parseCsv [[chars "D01", chars "55", chars "1"]]
      (some 1) (some 2) (some 3) none none none = .err .noUsable := by
  exact ⟨by decide, by decide, by decide⟩

/-- C3 (amended): in `parse_csv` the first row is treated as a data
row iff *every* cell individually satisfies the ID grammar
(equivalently, it is a header iff at least one cell fails it); in
`parse_csv_german` the first row is always treated as a header, as the
concrete run with a grammar-matching first row shows: that row is
consumed as the header and column resolution fails on it. -/
theorem C3_amended :
    (∀ row : List Cell,
      hasHeaderB row = false ↔ ∀ c ∈ row, csvSidMatch c = true) ∧
    parseCsvGerman [[chars "D01", chars "76", chars "1"], [chars "D02", chars "80", chars "1"]]
      = .err (.colNotFound [chars "code"] [chars "D01", chars "76", chars "1"]) := by
  refine ⟨?_, by decide⟩
  intro row
  unfold hasHeaderB
  simp

/-- C6 counterexample: `parse_csv` accepts a mixed column
specification — the identifier by name together with positional age
and sex indices — resolves all three columns and parses the data rows;
no `AmbiguousColumnSpec` rejection exists. -/
theorem C6_counterexample :
    resolveCols gHeader true none (some 2) (some 3) (some (chars "code")) none none
      = .ok (some 0, some 1, some 2) ∧
    parseCsv [gHeader, [chars "D01", chars "76", chars "1"]]
      none (some 2) (some 3) (some (chars "code")) none none
      = .ok ([(chars "D01", 76, 1)], 0) := by
  exact ⟨by decide, by decide⟩

/-- C6 (amended): when any column name is given, `parse_csv` resolves
each of the three columns independently — by its name when one is
given, otherwise by its (1-based) index — so mixing named and
positional specification is accepted, not rejected; a field left with
neither name nor index stays unresolved, and the run then fails with a
`TypeError` at the first data row (there is no `AmbiguousColumnSpec`).
The `main` entry point separately discards all index arguments as soon
as any name is given. -/
theorem C6_amended :
    (∀ (header : List Cell) (n : Cell) (i acol scol : Nat),
      idxFromName header n = .ok i → 0 < acol → 0 < scol →
      resolveCols header true none (some acol) (some scol) (some n) none none
        = .ok (some i, some (acol - 1), some (scol - 1))) ∧
    parseCsv [gHeader, [chars "D01", chars "76", chars "1"]]
      none none none (some (chars "code")) none none = .err .typeError := by
  refine ⟨?_, by decide⟩
  intro header n i acol scol hin ha hs
  have h0a : ¬acol = 0 := by omega
  have h0s : ¬scol = 0 := by omega
  simp [resolveCols, resolveOne, hin, h0a, h0s]

/-- C6 witness: the amended mixed-mode resolution evaluated on the
concrete German header with the identifier by name and positional age
and sex columns. -/
theorem C6_witness :
    resolveCols gHeader true none (some 2) (some 3) (some (chars "code")) none none
      = .ok (some 0, some (2 - 1), some (3 - 1)) :=
  C6_amended.1 gHeader (chars "code") 0 2 3 (by decide) (by decide) (by decide)

/- Helper lemmas about substring and index search. -/

theorem isPrefixB_iff (a b : List Char) : isPrefixB a b = true ↔ a <+: b := by
  induction a generalizing b with
  | nil => simp [isPrefixB]
  | cons x xs ih =>
    cases b with
    | nil => simp [isPrefixB]
    | cons y ys => simp [isPrefixB, List.cons_prefix_cons, ih]

theorem isSub_iff (n hay : List Char) : isSub n hay = true ↔ n <:+: hay := by
  induction hay with
  | nil => simp [isSub, List.infix_nil, List.isEmpty_iff]
  | cons b bs ih => simp [isSub, List.infix_cons_iff, isPrefixB_iff, ih]

theorem findColFrom_eq_none (cands : List Cell) (cells : List Cell) :
    ∀ i, findColFrom cands i cells = none ↔
      ∀ h ∈ cells, ∀ c ∈ cands, isSub c h = false := by
  induction cells with
  | nil => simp [findColFrom]
  | cons h hs ih =>
    intro i
    by_cases hc : cands.any (fun c => isSub c h)
    · simp only [findColFrom, hc, if_true]
      constructor
      · intro h0
        cases h0
      · intro h0
        obtain ⟨c, hcm, hcs⟩ := List.any_eq_true.mp hc
        rw [h0 h (List.mem_cons_self h hs) c hcm] at hcs
        cases hcs
    · rw [Bool.not_eq_true] at hc
      simp only [findColFrom, hc, Bool.false_eq_true, if_false, ih]
      constructor
      · intro h0 g hg c hcm
        rcases List.mem_cons.mp hg with h1 | h1
        · subst h1
          rcases List.any_eq_false.mp hc c hcm with h2
          rw [Bool.not_eq_true] at h2
          exact h2
        · exact h0 g h1 c hcm
      · intro h0 g hg c hcm
        exact h0 g (List.mem_cons_of_mem h hg) c hcm

theorem indexOfFrom_eq_none (target : Cell) (cells : List Cell) :
    ∀ i, indexOfFrom target i cells = none ↔ target ∉ cells := by
  induction cells with
  | nil => simp [indexOfFrom]
  | cons h hs ih =>
    intro i
    by_cases hc : h == target
    · simp only [indexOfFrom, hc, if_true]
      have he : h = target := by simpa using hc
      subst he
      simp
    · rw [Bool.not_eq_true] at hc
      simp only [indexOfFrom, hc, Bool.false_eq_true, if_false, ih]
      have hne : ¬h = target := by simpa using hc
      simp [List.mem_cons, hne]
      intro h0
      exact fun he => hne he.symm

/-- C7 counterexample: the claim says named column resolution matches
the requested name as a case-insensitive *substring* of the header
cells, so that `geschlecht` matches `Geschlecht (1=m, 2=f)`.  In
`idx_from_name` of `parse_csv` (`prepare_brainage_from_csv.py`) the
match is exact equality: the request `geschlecht` fails on that very
header with the error carrying the name and the header, while only
`_find_col` of the csv2 script does the substring match. -/
theorem C7_counterexample :
    idxFromName gHeader (chars "geschlecht")
      = .err (.nameNotFound (chars "geschlecht") gHeader) ∧
    findCol gHeader [chars "geschlecht", chars "sex"] = .ok 2 := by
  exact ⟨by decide, by decide⟩

/-- C7 (amended): `_find_col` of `prepare_brainage_from_csv2.py`
resolves a column iff some header cell, trimmed and lowered, contains
one of the candidates as a substring, and otherwise fails with an
error carrying the candidates and the observed header; `idx_from_name`
of `prepare_brainage_from_csv.py` instead requires the trimmed,
lowered name to be *equal* to a trimmed, lowered header cell, and
otherwise fails with an error carrying the name and the observed
header. -/
theorem C7_amended :
    (∀ (header : List Cell) (cands : List Cell),
      (∃ i, findCol header cands = .ok i) ↔
        ∃ h ∈ header, ∃ c ∈ cands, c <:+: lower (trim h)) ∧
    (∀ (header : List Cell) (cands : List Cell),
      (∀ h ∈ header, ∀ c ∈ cands, ¬c <:+: lower (trim h)) →
        findCol header cands = .err (.colNotFound cands header)) ∧
    (∀ (header : List Cell) (n : Cell),
      (∃ i, idxFromName header n = .ok i) ↔
        ∃ h ∈ header, lower (trim h) = lower (trim n)) ∧
    (∀ (header : List Cell) (n : Cell),
      (∀ h ∈ header, lower (trim h) ≠ lower (trim n)) →
        idxFromName header n = .err (.nameNotFound n header)) := by
  have hfc : ∀ (header : List Cell) (cands : List Cell),
      findColFrom cands 0 (header.map (fun h => lower (trim h))) = none ↔
        ∀ h ∈ header, ∀ c ∈ cands, ¬c <:+: lower (trim h) := by
    intro header cands
    rw [findColFrom_eq_none]
    constructor
    · intro h0 g hg c hcm hinf
      have := h0 (lower (trim g)) (List.mem_map_of_mem _ hg) c hcm
      rw [(isSub_iff c (lower (trim g))).mpr hinf] at this
      cases this
    · intro h0 g hg c hcm
      obtain ⟨g0, hg0, he⟩ := List.mem_map.mp hg
      subst he
      rw [Bool.eq_false_iff]
      intro hs
      exact h0 g0 hg0 c hcm ((isSub_iff _ _).mp hs)
  have hidx : ∀ (header : List Cell) (n : Cell),
      indexOfFrom (lower (trim n)) 0 (header.map (fun h => lower (trim h))) = none ↔
        ∀ h ∈ header, lower (trim h) ≠ lower (trim n) := by
    intro header n
    rw [indexOfFrom_eq_none, List.mem_map]
    push_neg
    exact Iff.rfl
  refine ⟨?_, ?_, ?_, ?_⟩
  · intro header cands
    unfold findCol
    cases hm : findColFrom cands 0 (header.map (fun h => lower (trim h))) with
    | some i =>
      simp only
      constructor
      · intro _
        by_contra hno
        push_neg at hno
        have : ∀ h ∈ header, ∀ c ∈ cands, ¬c <:+: lower (trim h) := by
          intro g hg c hcm hinf
          exact hno g hg c hcm hinf
        rw [(hfc header cands).mpr this] at hm
        cases hm
      · intro _
        exact ⟨i, rfl⟩
    | none =>
      simp only
      constructor
      · rintro ⟨i, hi⟩
        cases hi
      · intro hex
        obtain ⟨g, hg, c, hcm, hinf⟩ := hex
        have := (hfc header cands).mp hm
        exact absurd hinf (this g hg c hcm)
  · intro header cands h0
    unfold findCol
    rw [(hfc header cands).mpr h0]
  · intro header n
    unfold idxFromName
    cases hm : indexOfFrom (lower (trim n)) 0 (header.map (fun h => lower (trim h))) with
    | some i =>
      simp only
      constructor
      · intro _
        by_contra hno
        push_neg at hno
        rw [(hidx header n).mpr hno] at hm
        cases hm
      · intro _
        exact ⟨i, rfl⟩
    | none =>
      simp only
      constructor
      · rintro ⟨i, hi⟩
        cases hi
      · intro hex
        obtain ⟨g, hg, he⟩ := hex
        exact absurd he ((hidx header n).mp hm g hg)
  · intro header n h0
    unfold idxFromName
    rw [(hidx header n).mpr h0]

/-- C7 witness: `_find_col` finds `geschlecht` inside
`Geschlecht (1=m, 2=f)` at index 2, and `idx_from_name` fails on a
header containing no exact match. -/
theorem C7_witness :
    idxFromName [chars "X"] (chars "code")
      = .err (.nameNotFound (chars "code") [chars "X"]) :=
  C7_amended.2.2.2 [chars "X"] (chars "code") (by decide)

/-- C10: in `parse_csv` of `prepare_brainage_from_csv.py` a sex cell
with a numeric value other than 0 or 1, such as `2`, resolves to no
sex; any row whose sex cell does not resolve is skipped and counted,
never defaulted — so under the 1=male/2=female convention every female
row is dropped from the mapping, as the concrete singleton run shows:
empty mapping and one counted bad row. -/
theorem C10_sex_two_skipped :
    csvSexOf (chars "2") = none ∧
    (∀ (idI ageI sexI : Nat) (r : List Cell),
      csvSexOf (lower (trim (r.getD sexI []))) = none →
      csvRowStep idI ageI sexI r = none) ∧
    parseCsvRows 0 1 2 [[chars "D01", chars "76", chars "2"]] = ([], 1) := by
  refine ⟨by decide, ?_, by decide⟩
  intro idI ageI sexI r hsex
  unfold csvRowStep
  by_cases hlen : r.length ≤ max idI (max ageI sexI)
  · simp [hlen]
  · rw [if_neg hlen]
    by_cases hsid : csvSidMatch (trim (r.getD idI [])) = true
    · rw [hsid]
      simp only [Bool.not_true, Bool.false_eq_true, if_false]
      cases hage : parseDec (trim (r.getD ageI [])) with
      | none => rfl
      | some d => rw [hsex]
    · rw [Bool.not_eq_true] at hsid
      rw [hsid]
      simp

/-- C10 witness: the skip law evaluated on the concrete row
`D01;76;2` with columns 1, 2, 3. -/
theorem C10_witness :
    csvRowStep 0 1 2 [chars "D01", chars "76", chars "2"] = none :=
  C10_sex_two_skipped.2.1 0 1 2 [chars "D01", chars "76", chars "2"] (by decide)

/- Order lemmas for the lexicographic string order. -/

theorem lexLt_irrefl (a : List Char) : lexLt a a = false := by
  induction a with
  | nil => rfl
  | cons c cs ih => simp [lexLt, lt_irrefl, ih]

theorem lexLt_asymm {a b : List Char} (h : lexLt a b = true) : lexLt b a = false := by
  induction a generalizing b with
  | nil =>
    cases b with
    | nil => cases h
    | cons d ds => rfl
  | cons c cs ih =>
    cases b with
    | nil => cases h
    | cons d ds =>
      by_cases hcd : c < d
      · have hdc : ¬d < c := lt_asymm hcd
        simp [lexLt, hcd, hdc]
      · by_cases hdc : d < c
        · simp [lexLt, hcd, hdc] at h
        · simp only [lexLt, if_neg hcd, if_neg hdc] at h
          simp only [lexLt, if_neg hdc, if_neg hcd]
          exact ih h

theorem lexLt_trans {a b c : List Char} (h1 : lexLt a b = true) (h2 : lexLt b c = true) :
    lexLt a c = true := by
  induction a generalizing b c with
  | nil =>
    cases b with
    | nil => cases h1
    | cons y ys =>
      cases c with
      | nil => cases h2
      | cons z zs => rfl
  | cons x xs ih =>
    cases b with
    | nil => cases h1
    | cons y ys =>
      cases c with
      | nil => cases h2
      | cons z zs =>
        by_cases hxy : x < y
        · by_cases hyz : y < z
          · have hxz : x < z := lt_trans hxy hyz
            simp [lexLt, hxz]
          · by_cases hzy : z < y
            · simp [lexLt, hyz, hzy] at h2
            · have hyez : y = z := le_antisymm (le_of_not_lt hzy) (le_of_not_lt hyz)
              subst hyez
              simp [lexLt, hxy]
          -- x < y = z
        · by_cases hyx : y < x
          · simp [lexLt, hxy, hyx] at h1
          · have hxey : x = y := le_antisymm (le_of_not_lt hyx) (le_of_not_lt hxy)
            subst hxey
            simp only [lexLt, if_neg hxy, if_neg hyx] at h1
            by_cases hyz : x < z
            · simp [lexLt, hyz]
            · by_cases hzy : z < x
              · simp [lexLt, hyz, hzy] at h2
              · simp only [lexLt, if_neg hyz, if_neg hzy] at h2
                simp only [lexLt, if_neg hyz, if_neg hzy]
                exact ih h1 h2

theorem lexLt_eq_of_both_false {a b : List Char} (h1 : lexLt a b = false)
    (h2 : lexLt b a = false) : a = b := by
  induction a generalizing b with
  | nil =>
    cases b with
    | nil => rfl
    | cons d ds => cases h1
  | cons c cs ih =>
    cases b with
    | nil => cases h2
    | cons d ds =>
      by_cases hcd : c < d
      · simp [lexLt, hcd] at h1
      · by_cases hdc : d < c
        · simp [lexLt, hdc] at h2
        · have hce : c = d := le_antisymm (le_of_not_lt hdc) (le_of_not_lt hcd)
          subst hce
          simp only [lexLt, if_neg hcd, if_neg hdc] at h1 h2
          rw [ih h1 h2]

instance : IsTotal (List Char) pyLe := by
  constructor
  intro a b
  by_cases h : lexLt b a = false
  · exact Or.inl h
  · rw [Bool.not_eq_false] at h
    exact Or.inr (lexLt_asymm h)

instance : IsTrans (List Char) pyLe := by
  constructor
  intro a b c h1 h2
  unfold pyLe at *
  by_cases hca : lexLt c a = true
  · by_cases hab : lexLt a b = true
    · rw [lexLt_trans hca hab] at h2
      cases h2
    · rw [Bool.not_eq_true] at hab
      have : a = b := lexLt_eq_of_both_false hab h1
      subst this
      rw [hca] at h2
      cases h2
  · rw [Bool.not_eq_true] at hca
    exact hca

instance : IsAntisymm (List Char) pyLe := by
  constructor
  intro a b h1 h2
  exact (lexLt_eq_of_both_false h2 h1)

theorem lexLt_append_same (p u v : List Char) : lexLt (p ++ u) (p ++ v) = lexLt u v := by
  induction p with
  | nil => rfl
  | cons c cs ih => simp [lexLt, lt_irrefl, ih]

theorem lexLt_append_of_not_prefix {a b : List Char} (x y : List Char)
    (h : lexLt a b = true) (hp : ¬a <+: b) : lexLt (a ++ x) (b ++ y) = true := by
  induction a generalizing b with
  | nil => exact absurd (List.nil_prefix) hp
  | cons c cs ih =>
    cases b with
    | nil => cases h
    | cons d ds =>
      by_cases hcd : c < d
      · simp [lexLt, hcd]
      · by_cases hdc : d < c
        · simp [lexLt, hcd, hdc] at h
        · have hce : c = d := le_antisymm (le_of_not_lt hdc) (le_of_not_lt hcd)
          subst hce
          simp only [lexLt, if_neg hcd, if_neg hdc] at h
          have hp2 : ¬cs <+: ds := fun hpp => hp (List.cons_prefix_cons.mpr ⟨rfl, hpp⟩)
          simp only [List.cons_append, lexLt, if_neg hcd, if_neg hdc]
          exact ih h hp2

theorem pairwise_lexLt_of_sorted_nodup {l : List (List Char)}
    (hs : List.Sorted pyLe l) (hn : l.Nodup) :
    List.Pairwise (fun a b => lexLt a b = true) l := by
  have hand := List.Pairwise.and hs hn
  apply hand.imp
  intro a b hab
  obtain ⟨hle, hne⟩ := hab
  by_cases h : lexLt a b = true
  · exact h
  · rw [Bool.not_eq_true] at h
    exact absurd (lexLt_eq_of_both_false h hle) hne

theorem pairwise_lexLt_map_destName {sids : List Cell}
    (hpw : List.Pairwise (fun a b => lexLt a b = true) sids)
    (hpf : ∀ a ∈ sids, ∀ b ∈ sids, a ≠ b → ¬a <+: b) :
    List.Pairwise (fun a b => lexLt a b = true) (sids.map destName) := by
  rw [List.pairwise_map]
  apply List.Pairwise.imp_of_mem ?f hpw
  intro a b ha hb hab
  have hne : a ≠ b := by
    intro he
    subst he
    rw [lexLt_irrefl a] at hab
    cases hab
  have hnp : ¬a <+: b := hpf a ha b hb hne
  unfold destName
  rw [List.append_assoc, List.append_assoc, lexLt_append_same]
  exact lexLt_append_of_not_prefix _ _ hab hnp

/-- C1 counterexample: for the group with resolved subjects `D1` and
`D12` (one id a proper prefix of the other), line 1 of the label files
describes `D1`, but the sorted copied destination filenames begin with
`rp1_D12_T1.nii`, which describes `D12`: the two orders differ, so
line *i* does not describe the subject of the *i*-th sorted
destination file. -/
theorem C1_counterexample :
    subjectsLines mPre = [chars "D1", chars "D12"] ∧
    pysort ((keysOf mPre).map destName)
      = [chars "rp1_D12_T1.nii", chars "rp1_D1_T1.nii"] ∧
    (subjectsLines mPre).map destName ≠ pysort ((keysOf mPre).map destName) := by
  exact ⟨by decide, by decide, by decide⟩

/-- C1 (amended): for every group, `write_group_labels` writes the
three files with one value per line in lexicographic order of
SubjectID: line *i* of the subject, age and male files all describe
the *i*-th sorted subject.  This order agrees with the sorted copied
destination filenames `rp1_<ID>_T1.nii` *provided* no resolved
SubjectID of the group is a proper prefix of another (e.g. under
uniform zero-padding); with ids such as `D1`/`D12` the two orders can
differ. -/
theorem C1_amended (m : List (Cell × Int × Int))
    (hnd : (keysOf m).Nodup)
    (hpf : ∀ a ∈ keysOf m, ∀ b ∈ keysOf m, a ≠ b → ¬a <+: b) :
    subjectsLines m = sidsSorted m ∧
    List.Sorted pyLe (sidsSorted m) ∧
    (sidsSorted m).Perm (keysOf m) ∧
    (ageLines m).length = (subjectsLines m).length ∧
    (maleLines m).length = (subjectsLines m).length ∧
    (∀ i, i < (sidsSorted m).length →
      (subjectsLines m).getD i [] = (sidsSorted m).getD i [] ∧
      (ageLines m).getD i [] = intStr (lookupRec m ((sidsSorted m).getD i [])).1 ∧
      (maleLines m).getD i [] = intStr (lookupRec m ((sidsSorted m).getD i [])).2) ∧
    (sidsSorted m).map destName = pysort ((keysOf m).map destName) := by
  have hsorted : List.Sorted pyLe (sidsSorted m) :=
    List.sorted_insertionSort pyLe (keysOf m)
  have hperm : (sidsSorted m).Perm (keysOf m) :=
    List.perm_insertionSort pyLe (keysOf m)
  refine ⟨rfl, hsorted, hperm, by simp [ageLines, subjectsLines], by simp [maleLines, subjectsLines], ?_, ?_⟩
  · intro i hi
    have h1 : (sidsSorted m)[i]? = some ((sidsSorted m).getD i []) := by
      rw [List.getD_eq_getElem?_getD]
      cases hx : (sidsSorted m)[i]? with
      | none =>
        rw [List.getElem?_eq_none_iff] at hx
        omega
      | some v => rfl
    refine ⟨rfl, ?_, ?_⟩
    · show ((sidsSorted m).map (fun s => intStr (lookupRec m s).1)).getD i [] = _
      rw [List.getD_eq_getElem?_getD, List.getElem?_map, h1]
      rfl
    · show ((sidsSorted m).map (fun s => intStr (lookupRec m s).2)).getD i [] = _
      rw [List.getD_eq_getElem?_getD, List.getElem?_map, h1]
      rfl
  · have hnd2 : (sidsSorted m).Nodup := hperm.nodup_iff.mpr hnd
    have hpw : List.Pairwise (fun a b => lexLt a b = true) (sidsSorted m) :=
      pairwise_lexLt_of_sorted_nodup hsorted hnd2
    have hpf2 : ∀ a ∈ sidsSorted m, ∀ b ∈ sidsSorted m, a ≠ b → ¬a <+: b := by
      intro a ha b hb
      exact hpf a (hperm.mem_iff.mp ha) b (hperm.mem_iff.mp hb)
    have hpwm : List.Pairwise (fun a b => lexLt a b = true) ((sidsSorted m).map destName) :=
      pairwise_lexLt_map_destName hpw hpf2
    have hsortedm : List.Sorted pyLe ((sidsSorted m).map destName) :=
      hpwm.imp (fun h => lexLt_asymm h)
    have hpermm : ((sidsSorted m).map destName).Perm ((keysOf m).map destName) :=
      hperm.map destName
    have hsorted2 : List.Sorted pyLe (pysort ((keysOf m).map destName)) :=
      List.sorted_insertionSort pyLe ((keysOf m).map destName)
    have hperm2 : (pysort ((keysOf m).map destName)).Perm ((keysOf m).map destName) :=
      List.perm_insertionSort pyLe ((keysOf m).map destName)
    exact List.eq_of_perm_of_sorted (hpermm.trans hperm2.symm) hsortedm hsorted2

/-- C1 witness: the filename-order agreement of the amended claim
evaluated on the zero-padded two-subject group `D01`, `D02`. -/
theorem C1_witness :
    (sidsSorted mEx).map destName = pysort ((keysOf mEx).map destName) :=
  (C1_amended mEx (by decide) (by decide)).2.2.2.2.2.2

/-- C9 counterexample: reconciling the directory set `{D01, D02, K01}`
with the label set `{D01, K01, K02}` yields the resolved subjects
`{D01, K01}` and the reported labelOnly diagnostic `{K02}`, exactly as
claimed, but no diskOnly diagnostic exists: `D02` appears in neither
component of the reconciliation output, so it is not reported to the
caller. -/
theorem C9_counterexample :
    reconcile [chars "D01", chars "K01", chars "K02"]
        [chars "D01", chars "D02", chars "K01"]
      = ([chars "D01", chars "K01"], [chars "K02"]) ∧
    chars "D02" ∉
      (reconcile [chars "D01", chars "K01", chars "K02"]
        [chars "D01", chars "D02", chars "K01"]).1 ∧
    chars "D02" ∉
      (reconcile [chars "D01", chars "K01", chars "K02"]
        [chars "D01", chars "D02", chars "K01"]).2 := by
  exact ⟨by decide, by decide, by decide⟩

/-- C9 (amended): reconciliation produces as resolved subjects exactly
the label set intersected with the directory set, and reports as its
only discrepancy diagnostic exactly the labels with no directory
(labelOnly); neither discrepancy halts the run.  Directories with no
label (diskOnly, `D02` in the scenario) are silently ignored: no
diskOnly diagnostic is computed.  The scenario evaluates to resolved
`{D01, K01}` with reported labelOnly `{K02}`. -/
theorem C9_amended :
    (∀ (wanted disk : List Cell) (s : Cell),
      (s ∈ (reconcile wanted disk).1 ↔ s ∈ wanted ∧ s ∈ disk) ∧
      (s ∈ (reconcile wanted disk).2 ↔ s ∈ wanted ∧ s ∉ disk)) ∧
    reconcile [chars "D01", chars "K01", chars "K02"]
        [chars "D01", chars "D02", chars "K01"]
      = ([chars "D01", chars "K01"], [chars "K02"]) := by
  refine ⟨?_, by decide⟩
  intro wanted disk s
  constructor
  · unfold reconcile pysort
    rw [List.mem_filter, List.mem_insertionSort]
    simp [List.contains]
  · unfold reconcile pysort
    rw [List.mem_insertionSort, List.mem_filter]
    simp [List.contains]

end BrainAGE
